import Mathlib

/-!
Verification of the themes-query normalization and matching module
(`client/state/themes/utils.js` style module, supplied as `src/unnamed/part_000`).

The module is shallowly embedded: JavaScript objects holding query options are
modelled as ordered association lists from keys to primitive values (queries in
this module are flat objects of strings, numbers and booleans); `JSON.stringify`
and `JSON.parse` are modelled by an executable character-level codec restricted
to that shape (a flat object of primitives, or a single primitive), including
the escaping rules `JSON.stringify` applies to string data; the serialized-key
regular expression `^(?:(\d+):)?(.*)$` is modelled by an explicit split
function, including the fact that `.` in a JavaScript regular expression does
not match the line terminators LF, CR, U+2028 and U+2029 (so the expression
fails to match a string containing one of them).  All definitions are
executable and all fallible steps return `Option`.
-/

set_option linter.unusedVariables false

/-- A primitive JavaScript value as it occurs in a themes query object:
a string, a (model-integer) number, a boolean or `null`. -/
inductive Prim where
  | pstr : String → Prim
  | pint : Int → Prim
  | pbool : Bool → Prim
  | pnull : Prim
deriving DecidableEq, Repr

/-- A themes query object: an ordered list of key/value pairs, as a JavaScript
object literal with primitive values. -/
abbrev Query := List (String × Prim)

/-- A JSON value in the shape this module produces and consumes: a flat object
of primitives, or a bare primitive. -/
inductive JVal where
  | prim : Prim → JVal
  | obj : Query → JVal
deriving DecidableEq, Repr

/-- JavaScript truthiness of a primitive value. -/
def truthy : Prim → Bool
  | .pstr s => !(s == "")
  | .pint n => !(n == 0)
  | .pbool b => b
  | .pnull => false

/-- The decimal digit character for `d < 10` (used by the model of JavaScript
number-to-string conversion and of `JSON.stringify` on numbers). -/
def digitChar : Nat → Char
  | 0 => '0' | 1 => '1' | 2 => '2' | 3 => '3' | 4 => '4'
  | 5 => '5' | 6 => '6' | 7 => '7' | 8 => '8' | _ => '9'

/-- Decimal digits of `n`, most significant first; `fuel` bounds the recursion
(any `fuel > n` is enough). -/
def natDigitsAux : Nat → Nat → List Char
  | 0, _ => []
  | fuel + 1, n =>
    if n < 10 then [digitChar n]
    else natDigitsAux fuel (n / 10) ++ [digitChar (n % 10)]

/-- The decimal representation of `n`, as JavaScript `String(n)` produces it. -/
def natDigits (n : Nat) : List Char := natDigitsAux (n + 1) n

/-- Value of a run of decimal digit characters (the model of how
`Number(string)` reads an all-digits string). -/
def digitsToNat (ds : List Char) : Nat :=
  ds.foldl (fun a c => 10 * a + (c.toNat - 48)) 0

/-- Hexadecimal digit character (lowercase, as `JSON.stringify` emits in
`\u00XX` escapes). -/
def hexDigitChar : Nat → Char
  | 0 => '0' | 1 => '1' | 2 => '2' | 3 => '3' | 4 => '4' | 5 => '5' | 6 => '6'
  | 7 => '7' | 8 => '8' | 9 => '9' | 10 => 'a' | 11 => 'b' | 12 => 'c'
  | 13 => 'd' | 14 => 'e' | _ => 'f'

/-- Value of a hexadecimal digit character, accepting both cases, as in a JSON
`\uXXXX` escape. -/
def hexVal (c : Char) : Option Nat :=
  if 48 ≤ c.toNat ∧ c.toNat ≤ 57 then some (c.toNat - 48)
  else if 97 ≤ c.toNat ∧ c.toNat ≤ 102 then some (c.toNat - 87)
  else if 65 ≤ c.toNat ∧ c.toNat ≤ 70 then some (c.toNat - 55)
  else none

/-- How `JSON.stringify` emits one character of string data: quote and
backslash are escaped, control characters below U+0020 get their shorthand or a
`\u00XX` escape, every other character (including U+2028 and U+2029) is emitted
literally. -/
def escChar (c : Char) : List Char :=
  if c = '"' then ['\\', '"']
  else if c = '\\' then ['\\', '\\']
  else if c = '\x08' then ['\\', 'b']
  else if c = '\x09' then ['\\', 't']
  else if c = '\x0a' then ['\\', 'n']
  else if c = '\x0c' then ['\\', 'f']
  else if c = '\x0d' then ['\\', 'r']
  else if c.toNat < 32 then
    ['\\', 'u', '0', '0', hexDigitChar (c.toNat / 16), hexDigitChar (c.toNat % 16)]
  else [c]

/-- `JSON.stringify` escaping applied to a whole string body. -/
def escStr (s : List Char) : List Char := s.flatMap escChar

/-- `JSON.stringify` of a primitive value. -/
def encPrim : Prim → List Char
  | .pstr s => '"' :: (escStr s.data ++ ['"'])
  | .pint n => if n < 0 then '-' :: natDigits n.natAbs else natDigits n.toNat
  | .pbool true => ['t', 'r', 'u', 'e']
  | .pbool false => ['f', 'a', 'l', 's', 'e']
  | .pnull => ['n', 'u', 'l', 'l']

/-- `JSON.stringify` of one `"key":value` object member. -/
def encMember (kv : String × Prim) : List Char :=
  '"' :: (escStr kv.1.data ++ '"' :: ':' :: encPrim kv.2)

/-- `JSON.stringify` of an object's members followed by the closing brace:
members separated by commas, then `}` (for the empty object just `}`). -/
def encMembersClose : Query → List Char
  | [] => ['}']
  | [kv] => encMember kv ++ ['}']
  | kv :: rest => encMember kv ++ ',' :: encMembersClose rest

/-- `JSON.stringify` of a flat object of primitives. -/
def encObjChars (ps : Query) : List Char := '{' :: encMembersClose ps

/-- Prepend a character to the string still being parsed (helper for the model
of JSON string parsing). -/
def mapCons (c : Char) : Option (List Char × List Char) → Option (List Char × List Char)
  | none => none
  | some (s, r) => some (c :: s, r)

/-- Model of JSON string parsing, positioned just after the opening quote:
returns the decoded character data and the input remaining after the closing
quote, or `none` on malformed input (as `JSON.parse` throwing).  `fuel` bounds
the recursion; one unit is spent per decoded character, so any
`fuel > decoded length` suffices. -/
def parseStringBodyF : Nat → List Char → Option (List Char × List Char)
  | 0, _ => none
  | fuel + 1, l =>
    match l with
    | [] => none
    | c :: l =>
      if c = '"' then some ([], l)
      else if c = '\\' then
        match l with
        | [] => none
        | e :: l2 =>
          if e = '"' then mapCons '"' (parseStringBodyF fuel l2)
          else if e = '\\' then mapCons '\\' (parseStringBodyF fuel l2)
          else if e = '/' then mapCons '/' (parseStringBodyF fuel l2)
          else if e = 'b' then mapCons '\x08' (parseStringBodyF fuel l2)
          else if e = 't' then mapCons '\x09' (parseStringBodyF fuel l2)
          else if e = 'n' then mapCons '\x0a' (parseStringBodyF fuel l2)
          else if e = 'f' then mapCons '\x0c' (parseStringBodyF fuel l2)
          else if e = 'r' then mapCons '\x0d' (parseStringBodyF fuel l2)
          else if e = 'u' then
            match l2 with
            | h1 :: h2 :: h3 :: h4 :: l3 =>
              match hexVal h1, hexVal h2, hexVal h3, hexVal h4 with
              | some a, some b, some g, some d =>
                mapCons (Char.ofNat (4096 * a + 256 * b + 16 * g + d)) (parseStringBodyF fuel l3)
              | _, _, _, _ => none
            | _ => none
          else none
      else if c.toNat < 32 then none
      else mapCons c (parseStringBodyF fuel l)

/-- Model of JSON string parsing with the fuel computed from the input length
(always sufficient, since each decoded character consumes at least one input
character). -/
def parseStringBody (l : List Char) : Option (List Char × List Char) :=
  parseStringBodyF (l.length + 1) l

/-- Model of `JSON.parse` on a single primitive value, returning the value and
the remaining input, or `none` on malformed input. -/
def parsePrim : List Char → Option (Prim × List Char)
  | [] => none
  | c :: l =>
    if c = '"' then
      match parseStringBody l with
      | some (s, r) => some (.pstr (String.mk s), r)
      | none => none
    else if c = 't' then
      match l with
      | 'r' :: 'u' :: 'e' :: r => some (.pbool true, r)
      | _ => none
    else if c = 'f' then
      match l with
      | 'a' :: 'l' :: 's' :: 'e' :: r => some (.pbool false, r)
      | _ => none
    else if c = 'n' then
      match l with
      | 'u' :: 'l' :: 'l' :: r => some (.pnull, r)
      | _ => none
    else if c = '-' then
      match l with
      | d :: _ =>
        if d.isDigit then
          some (.pint (-(digitsToNat (l.takeWhile Char.isDigit) : Int)),
            l.dropWhile Char.isDigit)
        else none
      | [] => none
    else if c.isDigit then
      some (.pint (digitsToNat ((c :: l).takeWhile Char.isDigit)),
        (c :: l).dropWhile Char.isDigit)
    else none

/-- Model of `JSON.parse` on an object's member list, positioned at the opening
quote of the first key; consumes the closing brace.  `fuel` bounds the number
of members (the caller passes the input length, which always suffices). -/
def parseMembersF : Nat → List Char → Option (Query × List Char)
  | 0, _ => none
  | fuel + 1, l =>
    match l with
    | '"' :: l1 =>
      match parseStringBody l1 with
      | some (k, r1) =>
        match r1 with
        | ':' :: r2 =>
          match parsePrim r2 with
          | some (v, r3) =>
            match r3 with
            | ',' :: r4 =>
              match parseMembersF fuel r4 with
              | some (ms, r) => some ((String.mk k, v) :: ms, r)
              | none => none
            | '}' :: r4 => some ([(String.mk k, v)], r4)
            | _ => none
          | none => none
        | _ => none
      | none => none
    | _ => none

/-- Model of `JSON.parse` restricted to the shapes this module produces (a flat
object of primitives, or a bare primitive): `none` models a thrown
`SyntaxError`. -/
def jsonParseChars (l : List Char) : Option JVal :=
  match l with
  | '{' :: l1 =>
    match l1 with
    | '}' :: r => if r = [] then some (.obj []) else none
    | _ =>
      match parseMembersF (l1.length + 1) l1 with
      | some (ms, []) => some (.obj ms)
      | _ => none
  | _ =>
    match parsePrim l with
    | some (p, []) => some (.prim p)
    | _ => none

/-- True when the list does not begin with a decimal digit (used to state that
number parsing stops exactly at the end of the encoded number). -/
def headNotDigit : List Char → Bool
  | [] => true
  | c :: _ => !c.isDigit

/-- Modelled from the spec: `DEFAULT_THEME_QUERY` is imported from
`./constants`, a file not among the supplied sources.  Spec section 6 describes
it as "an externally supplied configuration object enumerating default values
for recognized query options (e.g. `search: ''`, `filter: ''`)". -/
def DEFAULT_THEME_QUERY : Query := [("search", .pstr ""), ("filter", .pstr "")]

/-- `getNormalizedThemesQuery(query)`: `omitBy(query, (value, key) =>
DEFAULT_THEME_QUERY[key] === value)` — drop exactly the keys whose value is
strictly equal to the default for that key (a key absent from the defaults
reads as `undefined`, which is strictly equal to no primitive value). -/
def getNormalizedThemesQuery (query : Query) : Query :=
  query.filter fun kv => !(List.lookup kv.1 DEFAULT_THEME_QUERY == some kv.2)

/-- `getSerializedThemesQuery(query, siteId)`: `JSON.stringify` the normalized
query and, when `siteId` is truthy (present and nonzero), prepend
`String(siteId)` and `:` (the `[siteId, serializedQuery].join(':')` of the
source). -/
def getSerializedThemesQuery (query : Query) (siteId : Option Nat) : String :=
  let normalizedQuery := getNormalizedThemesQuery query
  let serializedQuery := String.mk (encObjChars normalizedQuery)
  match siteId with
  | some n =>
    if n = 0 then serializedQuery
    else String.mk (natDigits n ++ ':' :: encObjChars normalizedQuery)
  | none => serializedQuery

/-- A JavaScript line terminator (LF, CR, U+2028, U+2029): `.` in the
serialized-query regular expression matches any character except these. -/
def isLineTerminator (c : Char) : Bool :=
  c.toNat == 10 || c.toNat == 13 || c.toNat == 8232 || c.toNat == 8233

/-- Model of `serializedQuery.match(/^(?:(\d+):)?(.*)$/)`: `none` when the
expression does not match (the input contains a line terminator, which `.`
cannot cross); otherwise the optional first capture group (a maximal nonempty
leading digit run followed by `:`) and the second capture group (the rest). -/
def regexMatchSerializedQuery (s : String) : Option (Option (List Char) × List Char) :=
  if s.data.any isLineTerminator then none
  else
    let ds := s.data.takeWhile Char.isDigit
    match s.data.dropWhile Char.isDigit with
    | ':' :: r => if ds.isEmpty then some (none, s.data) else some (some ds, r)
    | _ => some (none, s.data)

/-- The record `{ siteId, query }` returned by deserialization; either field
may be `undefined` (`none`). -/
structure ThemesQueryDetails where
  siteId : Option Nat
  query : Option JVal
deriving DecidableEq, Repr

/-- `getDeserializedThemesQueryDetails(serializedQuery)`: match the key against
the serialized-query expression; `siteId` is `Number(matches[1]) || undefined`
(so zero or a failed capture yield `undefined`), and `query` is
`JSON.parse(matches[2])` with a thrown parse error leaving it `undefined`. -/
def getDeserializedThemesQueryDetails (serializedQuery : String) : ThemesQueryDetails :=
  match regexMatchSerializedQuery serializedQuery with
  | none => { siteId := none, query := none }
  | some (g1, g2) =>
    { siteId :=
        match g1 with
        | none => none
        | some ds => if digitsToNat ds = 0 then none else some (digitsToNat ds),
      query := jsonParseChars g2 }

/-- A taxonomy term: a slug and an optional display name (Jetpack terms carry
no name). -/
structure Term where
  slug : String
  name : Option String
deriving DecidableEq, Repr

/-- The `cost` structure some endpoints return on a theme. -/
structure ThemeCost where
  number : Option Int
deriving DecidableEq, Repr

/-- A (normalized) theme object, with the fields this module reads; any field
may be absent. -/
structure Theme where
  name : Option String
  author : Option String
  descriptionLong : Option String
  taxonomies : Option (List (String × List Term))
  stylesheet : Option String
  cost : Option ThemeCost
deriving DecidableEq, Repr

/-- `SEARCH_TAXONOMIES = [ 'feature' ]`: the taxonomies client-side search
covers. -/
def SEARCH_TAXONOMIES : List String := ["feature"]

/-- Model of JavaScript `toLowerCase` (character-wise lowercasing). -/
def strLower (s : String) : String := String.mk (s.data.map Char.toLower)

/-- Whether `sub` occurs as a contiguous subsequence of `l` (helper for the
model of lodash `includes` on strings). -/
def inclAux (sub : List Char) : List Char → Bool
  | [] => sub.isEmpty
  | c :: t => sub.isPrefixOf (c :: t) || inclAux sub t

/-- Model of lodash `includes(haystack, needle)` on strings: contiguous
substring test. -/
def strIncludes (hay sub : String) : Bool := inclAux sub.data hay.data

/-- Model of lodash `startsWith(string, target)`. -/
def strStartsWith (s target : String) : Bool := target.data.isPrefixOf s.data

/-- Model of JavaScript `value.split(',')` (accumulator holds the current
segment, reversed). -/
def splitCommaAux : List Char → List Char → List String
  | [], acc => [String.mk acc.reverse]
  | c :: rest, acc =>
    if c = ',' then String.mk acc.reverse :: splitCommaAux rest []
    else splitCommaAux rest (c :: acc)

/-- Model of JavaScript `value.split(',')`. -/
def splitComma (s : String) : List String := splitCommaAux s.data []

/-- The truthiness-guarded lowercased substring test the search clause applies
to each optional string field: `field && includes(field.toLowerCase(),
search)`. -/
def fieldSearch (search : String) (o : Option String) : Bool :=
  match o with
  | none => false
  | some nm => !(nm == "") && strIncludes (strLower nm) search

/-- The search test applied to one taxonomy term: `name &&
includes(name.toLowerCase(), search)`. -/
def termNameMatchesSearch (search : String) (term : Term) : Bool :=
  fieldSearch search term.name

/-- The `search` case of `isThemeMatchingQuery` for a truthy string value:
lowercase the term, look in the searchable taxonomies' term names, then in the
theme's `name`, `author` and `descriptionLong`. -/
def searchClause (theme : Theme) (value : String) : Bool :=
  let search := strLower value
  let foundInTaxonomies := SEARCH_TAXONOMIES.any fun taxonomy =>
    match theme.taxonomies with
    | none => false
    | some taxs =>
      match List.lookup ("theme_" ++ taxonomy) taxs with
      | none => false
      | some terms => terms.any (termNameMatchesSearch search)
  foundInTaxonomies
    || fieldSearch search theme.name
    || fieldSearch search theme.author
    || fieldSearch search theme.descriptionLong

/-- The `filter` case of `isThemeMatchingQuery` for a truthy string value:
split on commas; every required slug must appear among the terms of some
taxonomy of the theme (`some` over an absent `taxonomies` is `false`). -/
def filterClause (theme : Theme) (value : String) : Bool :=
  let filters := splitComma value
  filters.all fun f =>
    match theme.taxonomies with
    | none => false
    | some taxs => taxs.any fun kv => kv.2.any fun t => t.slug == f

/-- One iteration of the `every(queryWithDefaults, ...)` switch: `search` and
`filter` have matching semantics, any other key is always satisfied.  The
`none` result models the `TypeError` thrown when a truthy non-string value
reaches `value.toLowerCase()` or `value.split(',')`. -/
def matchClauseForKey (theme : Theme) (key : String) (value : Prim) : Option Bool :=
  if key == "search" then
    if !truthy value then some true
    else
      match value with
      | .pstr s => some (searchClause theme s)
      | _ => none
  else if key == "filter" then
    if !truthy value then some true
    else
      match value with
      | .pstr s => some (filterClause theme s)
      | _ => none
  else some true

/-- Short-circuiting `every` over an `Option Bool`-valued body (`none`
propagates a thrown exception; `every` stops at the first `false`). -/
def everyOpt {α : Type} : List α → (α → Option Bool) → Option Bool
  | [], _ => some true
  | x :: xs, f =>
    match f x with
    | none => none
    | some false => some false
    | some true => everyOpt xs f

/-- Model of the object spread `{ ...defaults, ...query }`: the keys of
`defaults` in order (values overridden by `query` where present), then the keys
of `query` not present in `defaults`, in order. -/
def mergeQuery (defaults query : Query) : Query :=
  (defaults.map fun kv =>
    match List.lookup kv.1 query with
    | some w => (kv.1, w)
    | none => kv)
  ++ query.filter fun kv => !(defaults.any fun dv => dv.1 == kv.1)

/-- `isThemeMatchingQuery(query, theme)`: fill the query with defaults, then
require every entry's clause to be satisfied. -/
def isThemeMatchingQuery (query : Query) (theme : Theme) : Option Bool :=
  let queryWithDefaults := mergeQuery DEFAULT_THEME_QUERY query
  everyOpt queryWithDefaults fun kv => matchClauseForKey theme kv.1 kv.2

/-- A raw theme from a Jetpack site: an optional `tags` array of slugs, an
optional `taxonomies` field, and all remaining fields as a generic key/value
side list (preserved verbatim by the normalizer). -/
structure JetpackTheme where
  tags : Option (List String)
  taxonomies : Option (List (String × List Term))
  fields : List (String × Prim)
deriving DecidableEq, Repr

/-- `normalizeJetpackTheme(theme)`: without `tags`, the input is returned
unchanged; otherwise `tags` is removed and `taxonomies` is set to a single
`theme_feature` list with one slug-only term per tag. -/
def normalizeJetpackTheme (theme : JetpackTheme) : JetpackTheme :=
  match theme.tags with
  | none => theme
  | some tags =>
    { tags := none,
      taxonomies := some [("theme_feature", tags.map fun slug => { slug := slug, name := none })],
      fields := theme.fields }

/-- A raw theme from the WordPress.org API: an optional `tags` object (an
ordered slug-to-display-name mapping), an optional `taxonomies` field, and all
remaining fields as a generic key/value side list whose keys the normalizer
renames. -/
structure WporgTheme where
  tags : Option (List (String × String))
  taxonomies : Option (List (String × List Term))
  fields : List (String × Prim)
deriving DecidableEq, Repr

/-- The `attributesMap` of `normalizeWporgTheme`. -/
def wporgAttributesMap : List (String × String) :=
  [("slug", "id"), ("preview_url", "demo_uri"),
   ("screenshot_url", "screenshot"), ("download_link", "download")]

/-- One key renamed through `attributesMap` (`get(attributesMap, key, key)`). -/
def renameWporgKey (key : String) : String :=
  match List.lookup key wporgAttributesMap with
  | some k2 => k2
  | none => key

/-- `normalizeWporgTheme(theme)`: `mapKeys` through `attributesMap`; then, when
`tags` is present, remove it and set `taxonomies` to a single `theme_feature`
list of `{ name, slug }` terms, one per mapping entry in order. -/
def normalizeWporgTheme (theme : WporgTheme) : WporgTheme :=
  let normalizedTheme : WporgTheme :=
    { tags := theme.tags,
      taxonomies := theme.taxonomies,
      fields := theme.fields.map fun kv => (renameWporgKey kv.1, kv.2) }
  match normalizedTheme.tags with
  | none => normalizedTheme
  | some tags =>
    { tags := none,
      taxonomies :=
        some [("theme_feature", tags.map fun kv => { slug := kv.1, name := some kv.2 })],
      fields := normalizedTheme.fields }

/-- The stylesheet test shared by both premium classifiers: the optional
stylesheet is truthy and starts with `'premium/'`. -/
def stylesheetIsPremium (o : Option String) : Bool :=
  match o with
  | none => false
  | some themeStylesheet =>
    !(themeStylesheet == "") && strStartsWith themeStylesheet "premium/"

/-- `isPremium(theme)`: `get(theme, 'stylesheet', false)` must be truthy and
start with `'premium/'`. -/
def isPremium (theme : Theme) : Bool := stylesheetIsPremium theme.stylesheet

/-- The `!!(theme.cost && theme.cost.number)` fallback of `isPremiumTheme`. -/
def costNumberTruthy (theme : Theme) : Bool :=
  match theme.cost with
  | none => false
  | some c =>
    match c.number with
    | none => false
    | some n => !(n == 0)

/-- `isPremiumTheme(theme)`: false for a missing theme; true when `stylesheet`
is truthy and starts with `'premium/'`; otherwise the `cost.number`
truthiness fallback. -/
def isPremiumTheme : Option Theme → Bool
  | none => false
  | some theme =>
    if stylesheetIsPremium theme.stylesheet then true
    else costNumberTruthy theme

/-- A character the serialized-query round trip is safe for: not U+2028 or
U+2029 (all other problematic characters are escaped by `JSON.stringify`). -/
def cleanChar (c : Char) : Bool := !(c.toNat == 8232 || c.toNat == 8233)

/-- A string free of U+2028 and U+2029. -/
def strClean (s : String) : Bool := s.data.all cleanChar

/-- A primitive value free of U+2028 and U+2029 in its string data. -/
def primClean : Prim → Bool
  | .pstr s => strClean s
  | _ => true

/-- A query whose keys and string values are free of U+2028 and U+2029. -/
def queryClean (q : Query) : Bool := q.all fun kv => strClean kv.1 && primClean kv.2

/-- The claim's reading of the `search` constraint: the lowercased search term
occurs (case-insensitively) in some feature-taxonomy term name, or in the
theme's `name`, `author` or `descriptionLong`. -/
def searchMatchSpec (theme : Theme) (value : String) : Prop :=
  (∃ taxs, theme.taxonomies = some taxs ∧
    ∃ terms, List.lookup "theme_feature" taxs = some terms ∧
      ∃ t ∈ terms, ∃ nm, t.name = some nm ∧
        strIncludes (strLower nm) (strLower value) = true)
  ∨ (∃ nm, theme.name = some nm ∧ strIncludes (strLower nm) (strLower value) = true)
  ∨ (∃ a, theme.author = some a ∧ strIncludes (strLower a) (strLower value) = true)
  ∨ (∃ d2, theme.descriptionLong = some d2 ∧ strIncludes (strLower d2) (strLower value) = true)

/-- The claim's reading of one required `filter` slug: some taxonomy of the
theme has a term with exactly that slug. -/
def filterSlugSpec (theme : Theme) (f : String) : Prop :=
  ∃ taxs, theme.taxonomies = some taxs ∧ ∃ kv ∈ taxs, ∃ t ∈ kv.2, t.slug = f

/-- The example theme of the spec's matching test: only a
`taxonomies.theme_feature` entry `[{slug: 'blue', name: 'Blue'}]`. -/
def exampleBlueTheme : Theme :=
  { name := none, author := none, descriptionLong := none,
    taxonomies := some [("theme_feature", [{ slug := "blue", name := some "Blue" }])],
    stylesheet := none, cost := none }

/-- The all-absent theme (used to state that missing fields never match and
never raise). -/
def emptyTheme : Theme :=
  { name := none, author := none, descriptionLong := none,
    taxonomies := none, stylesheet := none, cost := none }

theorem digitChar_lt_ten (d : Nat) (h : d < 10) :
    (digitChar d).toNat = 48 + d ∧ (digitChar d).isDigit = true := by
  interval_cases d <;> exact ⟨by decide, by decide⟩

theorem natDigitsAux_spec (fuel : Nat) : ∀ n, n < fuel →
    (∀ c ∈ natDigitsAux fuel n, ∃ d, d < 10 ∧ c = digitChar d) ∧
    natDigitsAux fuel n ≠ [] ∧
    (∀ a, (natDigitsAux fuel n).foldl (fun a c => 10 * a + (c.toNat - 48)) a
      = a * 10 ^ (natDigitsAux fuel n).length + n) := by
  induction fuel with
  | zero => intro n h; omega
  | succ fuel ih =>
    intro n h
    by_cases h10 : n < 10
    · refine ⟨?_, ?_, ?_⟩
      · intro c hc
        simp only [natDigitsAux, if_pos h10, List.mem_singleton] at hc
        exact ⟨n, h10, hc⟩
      · simp [natDigitsAux, if_pos h10]
      · intro a
        simp only [natDigitsAux, if_pos h10, List.foldl_cons, List.foldl_nil,
          List.length_singleton, pow_one]
        have := (digitChar_lt_ten n h10).1
        omega
    · have hdiv : n / 10 < fuel := by
        have h1 : n / 10 < n := Nat.div_lt_self (by omega) (by omega)
        omega
      obtain ⟨hmem, hne, hfold⟩ := ih (n / 10) hdiv
      refine ⟨?_, ?_, ?_⟩
      · intro c hc
        simp only [natDigitsAux, if_neg h10, List.mem_append, List.mem_singleton] at hc
        rcases hc with hc | hc
        · exact hmem c hc
        · exact ⟨n % 10, by omega, hc⟩
      · simp only [natDigitsAux, if_neg h10]
        intro hcon
        exact hne (List.append_eq_nil.mp hcon).1
      · intro a
        simp only [natDigitsAux, if_neg h10, List.foldl_append, List.foldl_cons,
          List.foldl_nil, List.length_append, List.length_singleton]
        rw [hfold a]
        have hmod := (digitChar_lt_ten (n % 10) (by omega)).1
        have hpow : a * 10 ^ ((natDigitsAux fuel (n / 10)).length + 1)
            = (a * 10 ^ (natDigitsAux fuel (n / 10)).length) * 10 := by ring
        rw [hpow]
        omega

theorem natDigits_mem (n : Nat) : ∀ c ∈ natDigits n, ∃ d, d < 10 ∧ c = digitChar d :=
  (natDigitsAux_spec (n + 1) n (by omega)).1

theorem natDigits_ne_nil (n : Nat) : natDigits n ≠ [] :=
  (natDigitsAux_spec (n + 1) n (by omega)).2.1

theorem digitsToNat_natDigits (n : Nat) : digitsToNat (natDigits n) = n := by
  have := (natDigitsAux_spec (n + 1) n (by omega)).2.2 0
  simpa [digitsToNat, natDigits] using this

theorem natDigits_isDigit (n : Nat) : ∀ c ∈ natDigits n, c.isDigit = true := by
  intro c hc
  obtain ⟨d, hd, rfl⟩ := natDigits_mem n c hc
  exact (digitChar_lt_ten d hd).2

theorem hexVal_hexDigitChar (d : Nat) (h : d < 16) : hexVal (hexDigitChar d) = some d := by
  interval_cases d <;> decide

theorem psbF_quote (fuel : Nat) (L : List Char) :
    parseStringBodyF (fuel + 1) ('"' :: L) = some ([], L) := rfl

theorem psbF_esc_q (fuel : Nat) (L : List Char) :
    parseStringBodyF (fuel + 1) ('\\' :: '"' :: L) = mapCons '"' (parseStringBodyF fuel L) := rfl

theorem psbF_esc_bs (fuel : Nat) (L : List Char) :
    parseStringBodyF (fuel + 1) ('\\' :: '\\' :: L) = mapCons '\\' (parseStringBodyF fuel L) := rfl

theorem psbF_esc_b (fuel : Nat) (L : List Char) :
    parseStringBodyF (fuel + 1) ('\\' :: 'b' :: L) = mapCons '\x08' (parseStringBodyF fuel L) := rfl

theorem psbF_esc_t (fuel : Nat) (L : List Char) :
    parseStringBodyF (fuel + 1) ('\\' :: 't' :: L) = mapCons '\x09' (parseStringBodyF fuel L) := rfl

theorem psbF_esc_n (fuel : Nat) (L : List Char) :
    parseStringBodyF (fuel + 1) ('\\' :: 'n' :: L) = mapCons '\x0a' (parseStringBodyF fuel L) := rfl

theorem psbF_esc_f (fuel : Nat) (L : List Char) :
    parseStringBodyF (fuel + 1) ('\\' :: 'f' :: L) = mapCons '\x0c' (parseStringBodyF fuel L) := rfl

theorem psbF_esc_r (fuel : Nat) (L : List Char) :
    parseStringBodyF (fuel + 1) ('\\' :: 'r' :: L) = mapCons '\x0d' (parseStringBodyF fuel L) := rfl

theorem psbF_esc_u (fuel : Nat) (x y : Char) (L : List Char) :
    parseStringBodyF (fuel + 1) ('\\' :: 'u' :: '0' :: '0' :: x :: y :: L)
      = match hexVal '0', hexVal '0', hexVal x, hexVal y with
        | some a, some b, some g, some d =>
          mapCons (Char.ofNat (4096 * a + 256 * b + 16 * g + d)) (parseStringBodyF fuel L)
        | _, _, _, _ => none := rfl

theorem psbF_plain (fuel : Nat) (c : Char) (L : List Char)
    (h1 : ¬c = '"') (h2 : ¬c = '\\') (h8 : ¬c.toNat < 32) :
    parseStringBodyF (fuel + 1) (c :: L) = mapCons c (parseStringBodyF fuel L) := by
  show (if c = '"' then some ([], L)
    else if c = '\\' then _
    else if c.toNat < 32 then none
    else mapCons c (parseStringBodyF fuel L)) = mapCons c (parseStringBodyF fuel L)
  rw [if_neg h1, if_neg h2, if_neg h8]

theorem psbF_escStr (s : List Char) : ∀ fuel rest, s.length < fuel →
    parseStringBodyF fuel (escStr s ++ '"' :: rest) = some (s, rest) := by
  induction s with
  | nil =>
    intro fuel rest hf
    obtain ⟨f, rfl⟩ : ∃ f, fuel = f + 1 := ⟨fuel - 1, by omega⟩
    simpa [escStr] using psbF_quote f rest
  | cons c cs ih =>
    intro fuel rest hf
    obtain ⟨f, rfl⟩ : ∃ f, fuel = f + 1 := ⟨fuel - 1, by omega⟩
    have hfs : cs.length < f := by simp at hf; omega
    have hstep : escStr (c :: cs) ++ '"' :: rest
        = escChar c ++ (escStr cs ++ '"' :: rest) := by
      simp [escStr, List.flatMap_cons, List.append_assoc]
    rw [hstep]
    by_cases h1 : c = '"'
    · subst h1
      rw [show escChar '"' = ['\\', '"'] from rfl, List.cons_append, List.cons_append,
        List.nil_append, psbF_esc_q, ih f rest hfs]
      rfl
    by_cases h2 : c = '\\'
    · subst h2
      rw [show escChar '\\' = ['\\', '\\'] from rfl, List.cons_append, List.cons_append,
        List.nil_append, psbF_esc_bs, ih f rest hfs]
      rfl
    by_cases h3 : c = '\x08'
    · subst h3
      rw [show escChar '\x08' = ['\\', 'b'] from rfl, List.cons_append, List.cons_append,
        List.nil_append, psbF_esc_b, ih f rest hfs]
      rfl
    by_cases h4 : c = '\x09'
    · subst h4
      rw [show escChar '\x09' = ['\\', 't'] from rfl, List.cons_append, List.cons_append,
        List.nil_append, psbF_esc_t, ih f rest hfs]
      rfl
    by_cases h5 : c = '\x0a'
    · subst h5
      rw [show escChar '\x0a' = ['\\', 'n'] from rfl, List.cons_append, List.cons_append,
        List.nil_append, psbF_esc_n, ih f rest hfs]
      rfl
    by_cases h6 : c = '\x0c'
    · subst h6
      rw [show escChar '\x0c' = ['\\', 'f'] from rfl, List.cons_append, List.cons_append,
        List.nil_append, psbF_esc_f, ih f rest hfs]
      rfl
    by_cases h7 : c = '\x0d'
    · subst h7
      rw [show escChar '\x0d' = ['\\', 'r'] from rfl, List.cons_append, List.cons_append,
        List.nil_append, psbF_esc_r, ih f rest hfs]
      rfl
    by_cases h8 : c.toNat < 32
    · have hesc : escChar c
          = ['\\', 'u', '0', '0', hexDigitChar (c.toNat / 16), hexDigitChar (c.toNat % 16)] := by
        simp [escChar, h1, h2, h3, h4, h5, h6, h7, h8]
      have hd1 : hexVal (hexDigitChar (c.toNat / 16)) = some (c.toNat / 16) :=
        hexVal_hexDigitChar _ (by omega)
      have hd2 : hexVal (hexDigitChar (c.toNat % 16)) = some (c.toNat % 16) :=
        hexVal_hexDigitChar _ (by omega)
      rw [hesc]
      simp only [List.cons_append, List.nil_append]
      rw [psbF_esc_u, hd1, hd2]
      have hv0 : hexVal '0' = some 0 := rfl
      rw [hv0]
      simp only []
      have hval : 4096 * 0 + 256 * 0 + 16 * (c.toNat / 16) + c.toNat % 16 = c.toNat := by
        omega
      rw [hval, Char.ofNat_toNat, ih f rest hfs]
      rfl
    · have hesc : escChar c = [c] := by
        simp [escChar, h1, h2, h3, h4, h5, h6, h7, h8]
      rw [hesc]
      simp only [List.cons_append, List.nil_append]
      rw [psbF_plain f c _ h1 h2 h8, ih f rest hfs]
      rfl

theorem escChar_length_pos (c : Char) : 1 ≤ (escChar c).length := by
  unfold escChar
  split_ifs <;> simp

theorem escStr_length_ge (s : List Char) : s.length ≤ (escStr s).length := by
  induction s with
  | nil => simp [escStr]
  | cons c cs ih =>
    have := escChar_length_pos c
    simp only [escStr, List.flatMap_cons, List.length_append, List.length_cons]
    simp only [escStr] at ih
    omega

theorem parseStringBody_escStr (s rest : List Char) :
    parseStringBody (escStr s ++ '"' :: rest) = some (s, rest) := by
  apply psbF_escStr
  have h1 := escStr_length_ge s
  simp only [List.length_append, List.length_cons]
  omega

theorem takeWhile_append_not {p : Char → Bool} (xs : List Char)
    (hall : ∀ c ∈ xs, p c = true) :
    ∀ y ys, p y = false →
      (xs ++ y :: ys).takeWhile p = xs ∧ (xs ++ y :: ys).dropWhile p = y :: ys := by
  induction xs with
  | nil =>
    intro y ys hy
    simp [List.takeWhile, List.dropWhile, hy]
  | cons x xs ih =>
    intro y ys hy
    have hx : p x = true := hall x (by simp)
    have := ih (fun c hc => hall c (by simp [hc])) y ys hy
    simp [List.takeWhile, List.dropWhile, hx, this.1, this.2]

theorem strMk_data (s : String) : String.mk s.data = s := by cases s; rfl

theorem pp_quote (L : List Char) :
    parsePrim ('"' :: L)
      = match parseStringBody L with
        | some (s, r) => some (.pstr (String.mk s), r)
        | none => none := rfl

theorem pp_true (L : List Char) :
    parsePrim ('t' :: 'r' :: 'u' :: 'e' :: L) = some (.pbool true, L) := rfl

theorem pp_false (L : List Char) :
    parsePrim ('f' :: 'a' :: 'l' :: 's' :: 'e' :: L) = some (.pbool false, L) := rfl

theorem pp_null (L : List Char) :
    parsePrim ('n' :: 'u' :: 'l' :: 'l' :: L) = some (.pnull, L) := rfl

theorem pp_minus (L : List Char) :
    parsePrim ('-' :: L)
      = match L with
        | d :: _ =>
          if d.isDigit then
            some (.pint (-(digitsToNat (L.takeWhile Char.isDigit) : Int)),
              L.dropWhile Char.isDigit)
          else none
        | [] => none := rfl

theorem pp_digit (c : Char) (L : List Char)
    (h1 : ¬c = '"') (h2 : ¬c = 't') (h3 : ¬c = 'f') (h4 : ¬c = 'n') (h5 : ¬c = '-')
    (h6 : c.isDigit = true) :
    parsePrim (c :: L)
      = some (.pint (digitsToNat ((c :: L).takeWhile Char.isDigit)),
          (c :: L).dropWhile Char.isDigit) := by
  show (if c = '"' then _
    else if c = 't' then _
    else if c = 'f' then _
    else if c = 'n' then _
    else if c = '-' then _
    else if c.isDigit then
      some (Prim.pint (digitsToNat ((c :: L).takeWhile Char.isDigit)),
        (c :: L).dropWhile Char.isDigit)
    else none) = _
  rw [if_neg h1, if_neg h2, if_neg h3, if_neg h4, if_neg h5, if_pos h6]

theorem digitChar_ne (d : Nat) (h : d < 10) :
    ¬digitChar d = '"' ∧ ¬digitChar d = 't' ∧ ¬digitChar d = 'f' ∧
    ¬digitChar d = 'n' ∧ ¬digitChar d = '-' := by
  interval_cases d <;> exact ⟨by decide, by decide, by decide, by decide, by decide⟩

theorem pp_minus_digit (c : Char) (L : List Char) (hc : c.isDigit = true) :
    parsePrim ('-' :: c :: L)
      = some (.pint (-(digitsToNat ((c :: L).takeWhile Char.isDigit) : Int)),
          (c :: L).dropWhile Char.isDigit) := by
  rw [pp_minus]
  show (if c.isDigit then
      some (Prim.pint (-(digitsToNat ((c :: L).takeWhile Char.isDigit) : Int)),
        (c :: L).dropWhile Char.isDigit)
    else none) = _
  rw [if_pos hc]

theorem natDigits_split (m : Nat) (rest : List Char) (hrest : headNotDigit rest = true) :
    (natDigits m ++ rest).takeWhile Char.isDigit = natDigits m
    ∧ (natDigits m ++ rest).dropWhile Char.isDigit = rest := by
  cases rest with
  | nil =>
    constructor
    · rw [List.append_nil]
      exact List.takeWhile_eq_self_iff.mpr (natDigits_isDigit m)
    · rw [List.append_nil]
      exact List.dropWhile_eq_nil_iff.mpr (natDigits_isDigit m)
  | cons y ys =>
    have hy : y.isDigit = false := by
      simp only [headNotDigit, Bool.not_eq_true'] at hrest
      simpa using hrest
    exact takeWhile_append_not (natDigits m) (natDigits_isDigit m) y ys hy

theorem parsePrim_enc (p : Prim) (rest : List Char) (hrest : headNotDigit rest = true) :
    parsePrim (encPrim p ++ rest) = some (p, rest) := by
  cases p with
  | pstr s =>
    have hre : encPrim (.pstr s) ++ rest = '"' :: (escStr s.data ++ '"' :: rest) := by
      simp [encPrim]
    rw [hre, pp_quote, parseStringBody_escStr]
  | pint n =>
    rcases Int.lt_or_le n 0 with hneg | hpos
    · have he : encPrim (.pint n) = '-' :: natDigits n.natAbs := by
        simp [encPrim, if_pos hneg]
      obtain ⟨c, cs, hcs⟩ : ∃ c cs, natDigits n.natAbs = c :: cs := by
        cases h2 : natDigits n.natAbs with
        | nil => exact absurd h2 (natDigits_ne_nil _)
        | cons c cs => exact ⟨c, cs, rfl⟩
      have hcd : c.isDigit = true := natDigits_isDigit _ c (by rw [hcs]; simp)
      have hsplit := natDigits_split n.natAbs rest hrest
      have hli : encPrim (.pint n) ++ rest = '-' :: (c :: (cs ++ rest)) := by
        rw [he, hcs]; rfl
      have hback : c :: (cs ++ rest) = natDigits n.natAbs ++ rest := by
        rw [hcs]; rfl
      rw [hli, pp_minus_digit c _ hcd, hback, hsplit.1, hsplit.2, digitsToNat_natDigits]
      have hv : -((n.natAbs : Nat) : Int) = n := by omega
      rw [hv]
    · have he : encPrim (.pint n) = natDigits n.toNat := by
        simp [encPrim, if_neg (by omega : ¬n < 0)]
      obtain ⟨c, cs, hcs⟩ : ∃ c cs, natDigits n.toNat = c :: cs := by
        cases h2 : natDigits n.toNat with
        | nil => exact absurd h2 (natDigits_ne_nil _)
        | cons c cs => exact ⟨c, cs, rfl⟩
      obtain ⟨d, hd10, hcd2⟩ := natDigits_mem n.toNat c (by rw [hcs]; simp)
      have hcd : c.isDigit = true := by rw [hcd2]; exact (digitChar_lt_ten d hd10).2
      have hnes := digitChar_ne d hd10
      rw [← hcd2] at hnes
      obtain ⟨hne1, hne2, hne3, hne4, hne5⟩ := hnes
      have hsplit := natDigits_split n.toNat rest hrest
      have hli : encPrim (.pint n) ++ rest = c :: (cs ++ rest) := by
        rw [he, hcs]; rfl
      have hback : c :: (cs ++ rest) = natDigits n.toNat ++ rest := by
        rw [hcs]; rfl
      rw [hli, pp_digit c _ hne1 hne2 hne3 hne4 hne5 hcd, hback, hsplit.1, hsplit.2,
        digitsToNat_natDigits]
      have hv : ((n.toNat : Nat) : Int) = n := by omega
      rw [hv]
  | pbool b => cases b with
    | true =>
      have hre : encPrim (.pbool true) ++ rest = 't' :: 'r' :: 'u' :: 'e' :: rest := rfl
      rw [hre, pp_true]
    | false =>
      have hre : encPrim (.pbool false) ++ rest = 'f' :: 'a' :: 'l' :: 's' :: 'e' :: rest := rfl
      rw [hre, pp_false]
  | pnull =>
    have hre : encPrim .pnull ++ rest = 'n' :: 'u' :: 'l' :: 'l' :: rest := rfl
    rw [hre, pp_null]

theorem pm_step (f : Nat) (L : List Char) :
    parseMembersF (f + 1) ('"' :: L)
      = match parseStringBody L with
        | some (k, r1) =>
          match r1 with
          | ':' :: r2 =>
            match parsePrim r2 with
            | some (v, r3) =>
              match r3 with
              | ',' :: r4 =>
                match parseMembersF f r4 with
                | some (ms, r) => some ((String.mk k, v) :: ms, r)
                | none => none
              | '}' :: r4 => some ([(String.mk k, v)], r4)
              | _ => none
            | none => none
          | _ => none
        | none => none := rfl

theorem parseMembersF_enc (ps : Query) : ∀ (kv : String × Prim) (rest : List Char) (fuel : Nat),
    ps.length < fuel →
    parseMembersF fuel (encMembersClose (kv :: ps) ++ rest) = some (kv :: ps, rest) := by
  induction ps with
  | nil =>
    intro kv rest fuel hf
    obtain ⟨f, rfl⟩ : ∃ f, fuel = f + 1 := ⟨fuel - 1, by omega⟩
    have hL : encMembersClose [kv] ++ rest
        = '"' :: (escStr kv.1.data ++ '"' :: (':' :: (encPrim kv.2 ++ '}' :: rest))) := by
      simp [encMembersClose, encMember]
    have hp : parsePrim (encPrim kv.2 ++ '}' :: rest) = some (kv.2, '}' :: rest) :=
      parsePrim_enc kv.2 ('}' :: rest) rfl
    rw [hL, pm_step, parseStringBody_escStr]
    simp only [hp, strMk_data]
  | cons kv2 ps2 ih =>
    intro kv rest fuel hf
    obtain ⟨f, rfl⟩ : ∃ f, fuel = f + 1 := ⟨fuel - 1, by omega⟩
    have hL : encMembersClose (kv :: kv2 :: ps2) ++ rest
        = '"' :: (escStr kv.1.data ++ '"' :: (':' :: (encPrim kv.2 ++ ',' ::
            (encMembersClose (kv2 :: ps2) ++ rest)))) := by
      simp [encMembersClose, encMember]
    have hp : parsePrim (encPrim kv.2 ++ ',' :: (encMembersClose (kv2 :: ps2) ++ rest))
        = some (kv.2, ',' :: (encMembersClose (kv2 :: ps2) ++ rest)) :=
      parsePrim_enc kv.2 _ rfl
    have hrec : parseMembersF f (encMembersClose (kv2 :: ps2) ++ rest)
        = some (kv2 :: ps2, rest) := by
      apply ih
      simp only [List.length_cons] at hf
      omega
    rw [hL, pm_step, parseStringBody_escStr]
    simp only [hp, hrec, strMk_data]

theorem encMember_length_pos (kv : String × Prim) : 1 ≤ (encMember kv).length := by
  simp [encMember]

theorem encMembersClose_length (ps : Query) :
    ps.length < (encMembersClose ps).length + 1 := by
  induction ps with
  | nil => simp [encMembersClose]
  | cons kv ps ih =>
    cases ps with
    | nil => simp [encMembersClose]
    | cons kv2 ps2 =>
      have h1 := encMember_length_pos kv
      simp only [encMembersClose, List.length_append, List.length_cons] at ih ⊢
      omega

theorem encMembersClose_cons_shape (kv : String × Prim) (ps : Query) :
    ∃ t, encMembersClose (kv :: ps) = '"' :: t := by
  cases ps with
  | nil => exact ⟨_, rfl⟩
  | cons kv2 ps2 => exact ⟨_, rfl⟩

theorem jsonParseChars_encObj (ps : Query) :
    jsonParseChars (encObjChars ps) = some (.obj ps) := by
  cases ps with
  | nil => rfl
  | cons kv ps2 =>
    obtain ⟨t, ht⟩ := encMembersClose_cons_shape kv ps2
    have hfuel : (kv :: ps2).length - 1 < ('"' :: t).length := by
      rw [← ht]
      have := encMembersClose_length (kv :: ps2)
      simp only [List.length_cons] at this ⊢
      omega
    have hmem : parseMembersF (('"' :: t).length + 1) ('"' :: t) = some (kv :: ps2, []) := by
      have := parseMembersF_enc ps2 kv [] (('"' :: t).length + 1)
        (by simp only [List.length_cons] at hfuel ⊢; omega)
      rw [List.append_nil, ht] at this
      exact this
    show jsonParseChars ('{' :: encMembersClose (kv :: ps2)) = some (.obj (kv :: ps2))
    rw [ht]
    show (match parseMembersF (('"' :: t).length + 1) ('"' :: t) with
      | some (ms, []) => some (JVal.obj ms)
      | _ => none) = some (.obj (kv :: ps2))
    rw [hmem]

theorem getNormalizedThemesQuery_idem (q : Query) :
    getNormalizedThemesQuery (getNormalizedThemesQuery q) = getNormalizedThemesQuery q := by
  simp only [getNormalizedThemesQuery, List.filter_filter, Bool.and_self]

theorem getNormalizedThemesQuery_sublist (q : Query) :
    (getNormalizedThemesQuery q).Sublist q := List.filter_sublist q

theorem queryClean_filter (q : Query) (p : (String × Prim) → Bool)
    (h : queryClean q = true) : queryClean (q.filter p) = true := by
  simp only [queryClean, List.all_eq_true] at h ⊢
  intro kv hkv
  exact h kv (List.mem_of_mem_filter hkv)

theorem digitChar_not_LT (d : Nat) (h : d < 10) :
    isLineTerminator (digitChar d) = false := by
  interval_cases d <;> decide

theorem hexDigitChar_not_LT (d : Nat) :
    isLineTerminator (hexDigitChar d) = false := by
  rcases d with _|_|_|_|_|_|_|_|_|_|_|_|_|_|_|d <;> rfl

theorem escChar_not_LT (c : Char) (hc : cleanChar c = true) :
    ∀ x ∈ escChar c, isLineTerminator x = false := by
  intro x hx
  unfold escChar at hx
  split_ifs at hx with h1 h2 h3 h4 h5 h6 h7 h8
  all_goals simp only [List.mem_cons, List.not_mem_nil, or_false] at hx
  · rcases hx with rfl | rfl
    · rfl
    · rfl
  · rcases hx with rfl | rfl
    · rfl
    · rfl
  · rcases hx with rfl | rfl
    · rfl
    · rfl
  · rcases hx with rfl | rfl
    · rfl
    · rfl
  · rcases hx with rfl | rfl
    · rfl
    · rfl
  · rcases hx with rfl | rfl
    · rfl
    · rfl
  · rcases hx with rfl | rfl
    · rfl
    · rfl
  · rcases hx with rfl | rfl | rfl | rfl | rfl | rfl
    · rfl
    · rfl
    · rfl
    · rfl
    · exact hexDigitChar_not_LT _
    · exact hexDigitChar_not_LT _
  · subst hx
    simp only [cleanChar, Bool.not_eq_true', Bool.or_eq_false_iff,
      beq_eq_false_iff_ne, ne_eq] at hc
    obtain ⟨hc1, hc2⟩ := hc
    simp only [isLineTerminator, Bool.or_eq_false_iff, beq_eq_false_iff_ne, ne_eq]
    omega

theorem escStr_not_LT (s : List Char) (h : ∀ c ∈ s, cleanChar c = true) :
    ∀ x ∈ escStr s, isLineTerminator x = false := by
  intro x hx
  simp only [escStr, List.mem_flatMap] at hx
  obtain ⟨c, hc, hxc⟩ := hx
  exact escChar_not_LT c (h c hc) x hxc

theorem natDigits_not_LT (n : Nat) : ∀ x ∈ natDigits n, isLineTerminator x = false := by
  intro x hx
  obtain ⟨d, hd, rfl⟩ := natDigits_mem n x hx
  exact digitChar_not_LT d hd

theorem encPrim_not_LT (v : Prim) (hv : primClean v = true) :
    ∀ x ∈ encPrim v, isLineTerminator x = false := by
  intro x hx
  cases v with
  | pstr s =>
    simp only [encPrim, List.mem_cons, List.mem_append, List.mem_singleton,
      List.not_mem_nil, or_false] at hx
    rcases hx with rfl | hx | rfl
    · rfl
    · exact escStr_not_LT s.data (by simpa [primClean, strClean, List.all_eq_true] using hv) x hx
    · rfl
  | pint n =>
    simp only [encPrim] at hx
    split_ifs at hx
    · simp only [List.mem_cons] at hx
      rcases hx with rfl | hx
      · rfl
      · exact natDigits_not_LT _ x hx
    · exact natDigits_not_LT _ x hx
  | pbool b =>
    cases b <;> simp only [encPrim, List.mem_cons, List.not_mem_nil, or_false] at hx
    · rcases hx with rfl | rfl | rfl | rfl | rfl <;> rfl
    · rcases hx with rfl | rfl | rfl | rfl <;> rfl
  | pnull =>
    simp only [encPrim, List.mem_cons, List.not_mem_nil, or_false] at hx
    rcases hx with rfl | rfl | rfl | rfl <;> rfl

theorem encMember_not_LT (kv : String × Prim)
    (h1 : strClean kv.1 = true) (h2 : primClean kv.2 = true) :
    ∀ x ∈ encMember kv, isLineTerminator x = false := by
  intro x hx
  simp only [encMember, List.mem_cons, List.mem_append] at hx
  rcases hx with rfl | hx | rfl | rfl | hx
  · rfl
  · exact escStr_not_LT kv.1.data (by simpa [strClean, List.all_eq_true] using h1) x hx
  · rfl
  · rfl
  · exact encPrim_not_LT kv.2 h2 x hx

theorem encMembersClose_not_LT (ps : Query) (h : queryClean ps = true) :
    ∀ x ∈ encMembersClose ps, isLineTerminator x = false := by
  induction ps with
  | nil =>
    intro x hx
    simp only [encMembersClose, List.mem_singleton] at hx
    subst hx; rfl
  | cons kv ps ih =>
    have hkv : strClean kv.1 = true ∧ primClean kv.2 = true := by
      simp only [queryClean, List.all_cons, Bool.and_eq_true] at h
      exact h.1
    have hps : queryClean ps = true := by
      simp only [queryClean, List.all_cons, Bool.and_eq_true] at h
      exact h.2
    intro x hx
    cases ps with
    | nil =>
      simp only [encMembersClose, List.mem_append, List.mem_singleton] at hx
      rcases hx with hx | rfl
      · exact encMember_not_LT kv hkv.1 hkv.2 x hx
      · rfl
    | cons kv2 ps2 =>
      simp only [encMembersClose, List.mem_append, List.mem_cons] at hx
      rcases hx with hx | rfl | hx
      · exact encMember_not_LT kv hkv.1 hkv.2 x hx
      · rfl
      · exact ih hps x (by simpa [encMembersClose] using hx)

theorem encObjChars_not_LT (ps : Query) (h : queryClean ps = true) :
    (encObjChars ps).any isLineTerminator = false := by
  rw [List.any_eq_false]
  intro x hx
  simp only [encObjChars, List.mem_cons] at hx
  rcases hx with rfl | hx
  · decide
  · simp [encMembersClose_not_LT ps h x hx]

theorem regexMatch_obj (t : List Char) (h : ('{' :: t).any isLineTerminator = false) :
    regexMatchSerializedQuery (String.mk ('{' :: t)) = some (none, '{' :: t) := by
  unfold regexMatchSerializedQuery
  rw [if_neg (by simp only [String.mk]; simp [h])]
  rfl

theorem regexMatch_digits (n : Nat) (t : List Char)
    (ht : (natDigits n ++ ':' :: t).any isLineTerminator = false) :
    regexMatchSerializedQuery (String.mk (natDigits n ++ ':' :: t))
      = some (some (natDigits n), t) := by
  have hsplit := takeWhile_append_not (natDigits n) (natDigits_isDigit n) ':' t (by decide)
  obtain ⟨c, cs, hcs⟩ : ∃ c cs, natDigits n = c :: cs := by
    cases h2 : natDigits n with
    | nil => exact absurd h2 (natDigits_ne_nil _)
    | cons c cs => exact ⟨c, cs, rfl⟩
  unfold regexMatchSerializedQuery
  rw [if_neg (by simp [ht])]
  simp only []
  rw [hsplit.1, hsplit.2, hcs]
  rfl

theorem deserialize_enc_noSite (ps : Query)
    (h : (encObjChars ps).any isLineTerminator = false) :
    getDeserializedThemesQueryDetails (String.mk (encObjChars ps))
      = { siteId := none, query := some (.obj ps) } := by
  unfold getDeserializedThemesQueryDetails
  rw [show String.mk (encObjChars ps) = String.mk ('{' :: encMembersClose ps) from rfl,
    regexMatch_obj _ h]
  show { siteId := none, query := jsonParseChars ('{' :: encMembersClose ps) }
    = ({ siteId := none, query := some (.obj ps) } : ThemesQueryDetails)
  rw [show jsonParseChars ('{' :: encMembersClose ps) = jsonParseChars (encObjChars ps) from rfl,
    jsonParseChars_encObj]

theorem deserialize_enc_site (n : Nat) (hn : n ≠ 0) (ps : Query)
    (h : (encObjChars ps).any isLineTerminator = false) :
    getDeserializedThemesQueryDetails (String.mk (natDigits n ++ ':' :: encObjChars ps))
      = { siteId := some n, query := some (.obj ps) } := by
  have h1 : (natDigits n).any isLineTerminator = false := by
    rw [List.any_eq_false]
    intro x hx
    simp [natDigits_not_LT n x hx]
  have hLT : (natDigits n ++ ':' :: encObjChars ps).any isLineTerminator = false := by
    rw [List.any_append, h1, List.any_cons, h]
    decide
  unfold getDeserializedThemesQueryDetails
  rw [regexMatch_digits n (encObjChars ps) hLT]
  show { siteId := if digitsToNat (natDigits n) = 0 then none else some (digitsToNat (natDigits n)),
         query := jsonParseChars (encObjChars ps) }
    = ({ siteId := some n, query := some (.obj ps) } : ThemesQueryDetails)
  rw [digitsToNat_natDigits, if_neg hn, jsonParseChars_encObj]

/-- C1 (amended): for every query object whose keys and string values contain
no U+2028 or U+2029 character, and every optional site id,
`getDeserializedThemesQueryDetails (getSerializedThemesQuery q s)` yields a
query that re-normalizes to `getNormalizedThemesQuery q`, and yields
`siteId = s` whenever `s` is a positive integer.  (The restriction is forced:
`JSON.stringify` emits U+2028/U+2029 literally, and `.` in the serialized-key
regular expression does not match them, so the match fails for such queries —
see the counterexample.) -/
theorem c1_serializedQuery_roundTrip (q : Query) (s : Option Nat)
    (hq : queryClean q = true) :
    (∃ nq, (getDeserializedThemesQueryDetails (getSerializedThemesQuery q s)).query
        = some (JVal.obj nq)
      ∧ getNormalizedThemesQuery nq = getNormalizedThemesQuery q)
    ∧ (∀ n, s = some n → 0 < n →
        (getDeserializedThemesQueryDetails (getSerializedThemesQuery q s)).siteId = some n) := by
  have hnq : queryClean (getNormalizedThemesQuery q) = true := queryClean_filter q _ hq
  have hLT : (encObjChars (getNormalizedThemesQuery q)).any isLineTerminator = false :=
    encObjChars_not_LT _ hnq
  match s with
  | none =>
    have hs : getSerializedThemesQuery q none
        = String.mk (encObjChars (getNormalizedThemesQuery q)) := rfl
    rw [hs, deserialize_enc_noSite _ hLT]
    exact ⟨⟨getNormalizedThemesQuery q, rfl, getNormalizedThemesQuery_idem q⟩,
      fun n hn => by cases hn⟩
  | some n =>
    by_cases hn : n = 0
    · subst hn
      have hs : getSerializedThemesQuery q (some 0)
          = String.mk (encObjChars (getNormalizedThemesQuery q)) := rfl
      rw [hs, deserialize_enc_noSite _ hLT]
      refine ⟨⟨getNormalizedThemesQuery q, rfl, getNormalizedThemesQuery_idem q⟩, ?_⟩
      intro m hm hpos
      injection hm with hm2
      omega
    · have hs : getSerializedThemesQuery q (some n)
          = String.mk (natDigits n ++ ':' :: encObjChars (getNormalizedThemesQuery q)) := by
        unfold getSerializedThemesQuery
        simp only []
        rw [if_neg hn]
      rw [hs, deserialize_enc_site n hn _ hLT]
      refine ⟨⟨getNormalizedThemesQuery q, rfl, getNormalizedThemesQuery_idem q⟩, ?_⟩
      intro m hm hpos
      injection hm with hm2
      rw [hm2]

/-- Witness for C1: the round trip evaluated at the concrete query
`{ page: 2 }` and site id `7`. -/
theorem c1_serializedQuery_roundTrip_witness :
    queryClean [(("page" : String), Prim.pint 2)] = true
    ∧ ((∃ nq, (getDeserializedThemesQueryDetails
          (getSerializedThemesQuery [("page", Prim.pint 2)] (some 7))).query
            = some (JVal.obj nq)
        ∧ getNormalizedThemesQuery nq = getNormalizedThemesQuery [("page", Prim.pint 2)])
      ∧ (∀ n, (some 7 : Option Nat) = some n → 0 < n →
          (getDeserializedThemesQueryDetails
            (getSerializedThemesQuery [("page", Prim.pint 2)] (some 7))).siteId = some n)) :=
  ⟨by decide, c1_serializedQuery_roundTrip [("page", Prim.pint 2)] (some 7) (by decide)⟩

/-- Counterexample to C1 as stated: for the query `{ search: " " }` the
serialized key contains a literal U+2028, the regular expression fails to
match, and deserialization returns `{ siteId: undefined, query: undefined }`,
so no deserialized query re-normalizes to the normalized input. -/
theorem c1_roundTrip_counterexample :
    getNormalizedThemesQuery [("search", Prim.pstr (String.mk [Char.ofNat 8232]))]
      = [("search", Prim.pstr (String.mk [Char.ofNat 8232]))]
    ∧ getDeserializedThemesQueryDetails (getSerializedThemesQuery
        [("search", Prim.pstr (String.mk [Char.ofNat 8232]))] none)
      = { siteId := none, query := none }
    ∧ ¬∃ nq, (getDeserializedThemesQueryDetails (getSerializedThemesQuery
        [("search", Prim.pstr (String.mk [Char.ofNat 8232]))] none)).query
          = some (JVal.obj nq) := by
  refine ⟨by decide, by decide, ?_⟩
  intro ⟨nq, hnq⟩
  rw [show (getDeserializedThemesQueryDetails (getSerializedThemesQuery
      [("search", Prim.pstr (String.mk [Char.ofNat 8232]))] none)).query = none
    from by decide] at hnq
  cases hnq

/-- C2: serializing an already-normalized query gives the same key as
serializing the raw query, for every query and optional site id. -/
theorem c2_serialize_idempotent (q : Query) (s : Option Nat) :
    getSerializedThemesQuery (getNormalizedThemesQuery q) s
      = getSerializedThemesQuery q s := by
  unfold getSerializedThemesQuery
  rw [getNormalizedThemesQuery_idem]

/-- C3: `getNormalizedThemesQuery` returns a copy of the query (a sublist, so
order and multiplicity are preserved) keeping exactly the entries whose value
is not strictly equal to the corresponding default; entries whose key is
absent from the default query are always kept with their value unchanged. -/
theorem c3_normalize_spec (q : Query) :
    (getNormalizedThemesQuery q).Sublist q
    ∧ (∀ kv : String × Prim, kv ∈ getNormalizedThemesQuery q ↔
        (kv ∈ q ∧ ¬List.lookup kv.1 DEFAULT_THEME_QUERY = some kv.2))
    ∧ (∀ kv : String × Prim, kv ∈ q → List.lookup kv.1 DEFAULT_THEME_QUERY = none →
        kv ∈ getNormalizedThemesQuery q) := by
  refine ⟨getNormalizedThemesQuery_sublist q, ?_, ?_⟩
  · intro kv
    simp [getNormalizedThemesQuery, List.mem_filter]
  · intro kv hkv hnone
    simp [getNormalizedThemesQuery, List.mem_filter, hkv, hnone]

/-- Witness for C3 at the concrete query `{ search: '', page: 2 }`: the
`search` entry equals its default and is dropped; `page` is absent from the
defaults and kept. -/
theorem c3_normalize_spec_witness :
    (("page", Prim.pint 2) ∈ getNormalizedThemesQuery
        [("search", Prim.pstr ""), ("page", Prim.pint 2)]
      ∧ ¬("search", Prim.pstr "") ∈ getNormalizedThemesQuery
        [("search", Prim.pstr ""), ("page", Prim.pint 2)]) := by
  constructor
  · exact (c3_normalize_spec [("search", Prim.pstr ""), ("page", Prim.pint 2)]).2.2
      ("page", Prim.pint 2) (by decide) (by decide)
  · intro hmem
    have h2 := ((c3_normalize_spec [("search", Prim.pstr ""), ("page", Prim.pint 2)]).2.1
      ("search", Prim.pstr "")).mp hmem
    exact h2.2 (by decide)

/-- C4: deserialization is total — for every input string it returns a record;
the returned `siteId` is `undefined` or a positive integer; when the regular
expression matched, `query` is exactly the (fallible) JSON parse of the second
capture group, so a malformed remainder yields `query = undefined`; and when
the expression did not match, both fields are `undefined`.  (The embedding
returns `Option`-valued results everywhere, so no exception escapes by
construction.) -/
theorem c4_deserialize_total (s : String) :
    ((getDeserializedThemesQueryDetails s).siteId = none
      ∨ ∃ n, 0 < n ∧ (getDeserializedThemesQueryDetails s).siteId = some n)
    ∧ (∀ g1 g2, regexMatchSerializedQuery s = some (g1, g2) →
        (getDeserializedThemesQueryDetails s).query = jsonParseChars g2)
    ∧ (regexMatchSerializedQuery s = none →
        getDeserializedThemesQueryDetails s = { siteId := none, query := none }) := by
  unfold getDeserializedThemesQueryDetails
  cases hr : regexMatchSerializedQuery s with
  | none =>
    refine ⟨Or.inl rfl, ?_, fun _ => rfl⟩
    intro g1 g2 h
    cases h
  | some gg =>
    obtain ⟨g1, g2⟩ := gg
    refine ⟨?_, ?_, ?_⟩
    · cases g1 with
      | none => exact Or.inl rfl
      | some ds =>
        by_cases hz : digitsToNat ds = 0
        · exact Or.inl (by simp [hz])
        · exact Or.inr ⟨digitsToNat ds, by omega, by simp [hz]⟩
    · intro g1' g2' h
      injection h with h2
      injection h2 with h3 h4
      rw [h4]
    · intro h
      cases h

/-- Witness for C4 at the concrete malformed key `"12:notjson"`: the site id
comes back as `12` and the query as `undefined`. -/
theorem c4_deserialize_total_witness :
    ((getDeserializedThemesQueryDetails "12:notjson").siteId = none
      ∨ ∃ n, 0 < n ∧ (getDeserializedThemesQueryDetails "12:notjson").siteId = some n)
    ∧ (∀ g1 g2, regexMatchSerializedQuery "12:notjson" = some (g1, g2) →
        (getDeserializedThemesQueryDetails "12:notjson").query = jsonParseChars g2)
    ∧ (regexMatchSerializedQuery "12:notjson" = none →
        getDeserializedThemesQueryDetails "12:notjson"
          = { siteId := none, query := none }) :=
  c4_deserialize_total "12:notjson"

/-- C10: a site id of zero is indistinguishable from no site scoping —
serialization with site id `0` produces the unprefixed key, and a key starting
with `"0:"` deserializes to `siteId = undefined` (the digits matched but
`Number` gives `0`, which is falsy). -/
theorem c10_siteId_zero :
    (∀ q : Query, getSerializedThemesQuery q (some 0) = getSerializedThemesQuery q none)
    ∧ (∀ r : String, (getDeserializedThemesQueryDetails ("0:" ++ r)).siteId = none) := by
  constructor
  · intro q; rfl
  · intro r
    have hdata : ("0:" ++ r) = String.mk ('0' :: ':' :: r.data) := by
      cases r; rfl
    rw [hdata]
    unfold getDeserializedThemesQueryDetails regexMatchSerializedQuery
    by_cases hLT : ('0' :: ':' :: r.data).any isLineTerminator = true
    · rw [if_pos hLT]
    · rw [if_neg hLT]
      rfl

theorem merge_search (v : Prim) :
    mergeQuery DEFAULT_THEME_QUERY [("search", v)]
      = [("search", v), ("filter", Prim.pstr "")] := rfl

theorem merge_filterKey (v : Prim) :
    mergeQuery DEFAULT_THEME_QUERY [("filter", v)]
      = [("search", Prim.pstr ""), ("filter", v)] := rfl

theorem matcher_search (theme : Theme) (s : String) (hs : ¬s = "") :
    isThemeMatchingQuery [("search", Prim.pstr s)] theme
      = some (searchClause theme s) := by
  have hbe : (s == "") = false := beq_eq_false_iff_ne.mpr hs
  unfold isThemeMatchingQuery
  rw [merge_search]
  cases hsc : searchClause theme s <;>
    simp [everyOpt, matchClauseForKey, truthy, hbe, hsc,
      show (("search" : String) == "search") = true from by decide,
      show (("filter" : String) == "search") = false from by decide,
      show (("filter" : String) == "filter") = true from by decide,
      show (("" : String) == "") = true from by decide]

theorem matcher_filter (theme : Theme) (s : String) (hs : ¬s = "") :
    isThemeMatchingQuery [("filter", Prim.pstr s)] theme
      = some (filterClause theme s) := by
  have hbe : (s == "") = false := beq_eq_false_iff_ne.mpr hs
  unfold isThemeMatchingQuery
  rw [merge_filterKey]
  cases hfc : filterClause theme s <;>
    simp [everyOpt, matchClauseForKey, truthy, hbe, hfc,
      show (("search" : String) == "search") = true from by decide,
      show (("filter" : String) == "search") = false from by decide,
      show (("filter" : String) == "filter") = true from by decide,
      show (("" : String) == "") = true from by decide]

theorem matcher_search_falsy (theme : Theme) (v : Prim) (hv : truthy v = false) :
    isThemeMatchingQuery [("search", v)] theme = some true := by
  unfold isThemeMatchingQuery
  rw [merge_search]
  simp [everyOpt, matchClauseForKey, hv,
    show (("search" : String) == "search") = true from by decide,
    show (("filter" : String) == "search") = false from by decide,
    show (("filter" : String) == "filter") = true from by decide,
    show truthy (Prim.pstr "") = false from by decide]

theorem matcher_filter_falsy (theme : Theme) (v : Prim) (hv : truthy v = false) :
    isThemeMatchingQuery [("filter", v)] theme = some true := by
  unfold isThemeMatchingQuery
  rw [merge_filterKey]
  simp [everyOpt, matchClauseForKey, hv,
    show (("search" : String) == "search") = true from by decide,
    show (("filter" : String) == "search") = false from by decide,
    show (("filter" : String) == "filter") = true from by decide,
    show truthy (Prim.pstr "") = false from by decide]

theorem strLower_data_ne (value : String) (hv : ¬value = "") :
    (strLower value).data ≠ [] := by
  cases value with
  | mk data =>
    cases data with
    | nil => exact absurd rfl hv
    | cons c t => simp [strLower]

theorem strIncludes_empty_hay (sub : String) (h : sub.data ≠ []) :
    strIncludes "" sub = false := by
  unfold strIncludes inclAux
  cases hd : sub.data with
  | nil => exact absurd hd h
  | cons c t => simp [List.isEmpty, hd]

theorem fieldSearch_iff (search : String) (o : Option String) (h : search.data ≠ []) :
    fieldSearch search o = true
      ↔ ∃ nm, o = some nm ∧ strIncludes (strLower nm) search = true := by
  cases o with
  | none => simp [fieldSearch]
  | some nm =>
    simp only [fieldSearch, Bool.and_eq_true, Option.some.injEq]
    constructor
    · rintro ⟨h1, h2⟩
      exact ⟨nm, rfl, h2⟩
    · rintro ⟨nm2, rfl, h2⟩
      refine ⟨?_, h2⟩
      by_cases hval : nm = ""
      · subst hval
        rw [show strLower "" = "" from rfl] at h2
        rw [strIncludes_empty_hay search h] at h2
        cases h2
      · simp [beq_eq_false_iff_ne.mpr hval]

theorem searchClause_iff (theme : Theme) (value : String) (hv : ¬value = "") :
    searchClause theme value = true ↔ searchMatchSpec theme value := by
  have h : (strLower value).data ≠ [] := strLower_data_ne value hv
  unfold searchClause searchMatchSpec
  simp only [SEARCH_TAXONOMIES, List.any_cons, List.any_nil, Bool.or_false,
    Bool.or_eq_true, fieldSearch_iff _ _ h,
    show ("theme_" ++ "feature" : String) = "theme_feature" from by decide]
  cases htx : theme.taxonomies with
  | none =>
    simp only [reduceCtorEq, false_and, exists_false, false_or]
    simp only [or_assoc]
  | some taxs =>
    simp only [Option.some.injEq, exists_eq_left']
    cases hlk : List.lookup "theme_feature" taxs with
    | none =>
      simp only [hlk, reduceCtorEq, false_and, exists_false, false_or]
      simp only [or_assoc]
    | some terms =>
      simp only [hlk, Option.some.injEq, exists_eq_left', List.any_eq_true,
        termNameMatchesSearch, fieldSearch_iff _ _ h]
      simp only [or_assoc]

theorem filterClause_iff (theme : Theme) (value : String) :
    filterClause theme value = true
      ↔ ∀ f ∈ splitComma value, filterSlugSpec theme f := by
  unfold filterClause filterSlugSpec
  simp only [List.all_eq_true]
  apply forall_congr'
  intro f
  apply imp_congr_right
  intro hf
  cases htx : theme.taxonomies with
  | none => simp
  | some taxs =>
    simp only [Option.some.injEq, exists_eq_left', List.any_eq_true, beq_iff_eq]

/-- C5: for a theme and a query whose defaulted `search` value is a non-empty
string, the matcher's search clause is satisfied exactly when the lowercased
search term occurs in a feature-taxonomy term name, the theme's name, its
author, or its long description (each compared lowercased; missing fields never
match and never raise); a falsy `search` value is always satisfied; and the
query `{ search: 'blue' }` matches a theme whose `taxonomies.theme_feature` is
`[{slug: 'blue', name: 'Blue'}]`. -/
theorem c5_search_matching :
    (∀ (theme : Theme) (s : String), ¬s = "" →
      isThemeMatchingQuery [("search", Prim.pstr s)] theme = some (searchClause theme s))
    ∧ (∀ (theme : Theme) (s : String), ¬s = "" →
        (searchClause theme s = true ↔ searchMatchSpec theme s))
    ∧ (∀ (theme : Theme) (v : Prim), truthy v = false →
        isThemeMatchingQuery [("search", v)] theme = some true)
    ∧ (∀ s : String, searchClause emptyTheme s = false)
    ∧ isThemeMatchingQuery [("search", Prim.pstr "blue")] exampleBlueTheme = some true := by
  refine ⟨matcher_search, searchClause_iff, matcher_search_falsy, ?_, by decide⟩
  intro s
  rfl

/-- Witness for C5 at concrete inputs: the matcher agrees with the search
clause on `{ search: 'blue' }` and the example theme, and a falsy search is
always satisfied. -/
theorem c5_search_matching_witness :
    isThemeMatchingQuery [("search", Prim.pstr "blue")] exampleBlueTheme
        = some (searchClause exampleBlueTheme "blue")
    ∧ (searchClause exampleBlueTheme "blue" = true ↔ searchMatchSpec exampleBlueTheme "blue")
    ∧ isThemeMatchingQuery [("search", Prim.pstr "")] emptyTheme = some true :=
  ⟨c5_search_matching.1 exampleBlueTheme "blue" (by decide),
   c5_search_matching.2.1 exampleBlueTheme "blue" (by decide),
   c5_search_matching.2.2.1 emptyTheme (Prim.pstr "") (by decide)⟩

/-- C6: for a theme and a query whose defaulted `filter` value is a non-empty
string, the matcher's filter clause is satisfied exactly when every
comma-separated required slug occurs as the slug of some term of some taxonomy
of the theme (conjunction over slugs, disjunction over taxonomies and terms); a
falsy `filter` value is always satisfied; and `{ filter: 'blue,red' }` does not
match a theme whose taxonomies only contain the slug `blue`. -/
theorem c6_filter_matching :
    (∀ (theme : Theme) (s : String), ¬s = "" →
      isThemeMatchingQuery [("filter", Prim.pstr s)] theme = some (filterClause theme s))
    ∧ (∀ (theme : Theme) (s : String),
        (filterClause theme s = true ↔ ∀ f ∈ splitComma s, filterSlugSpec theme f))
    ∧ (∀ (theme : Theme) (v : Prim), truthy v = false →
        isThemeMatchingQuery [("filter", v)] theme = some true)
    ∧ isThemeMatchingQuery [("filter", Prim.pstr "blue,red")] exampleBlueTheme = some false := by
  exact ⟨matcher_filter, filterClause_iff, matcher_filter_falsy, by decide⟩

/-- Witness for C6 at concrete inputs: the matcher agrees with the filter
clause on `{ filter: 'blue,red' }` and the example theme, and a falsy filter
is always satisfied. -/
theorem c6_filter_matching_witness :
    isThemeMatchingQuery [("filter", Prim.pstr "blue,red")] exampleBlueTheme
        = some (filterClause exampleBlueTheme "blue,red")
    ∧ (filterClause exampleBlueTheme "blue,red" = true
        ↔ ∀ f ∈ splitComma "blue,red", filterSlugSpec exampleBlueTheme f)
    ∧ isThemeMatchingQuery [("filter", Prim.pstr "")] emptyTheme = some true :=
  ⟨c6_filter_matching.1 exampleBlueTheme "blue,red" (by decide),
   c6_filter_matching.2.1 exampleBlueTheme "blue,red",
   c6_filter_matching.2.2.1 emptyTheme (Prim.pstr "") (by decide)⟩

/-- C7: the Jetpack normalizer returns a tagless theme unchanged; with tags it
returns a copy with no `tags`, a `taxonomies.theme_feature` list of slug-only
terms in order, and all other fields preserved verbatim; in particular
`{ tags: ['a','b'] }` yields `theme_feature = [{slug:'a'},{slug:'b'}]`. -/
theorem c7_normalizeJetpackTheme :
    (∀ t : JetpackTheme, t.tags = none → normalizeJetpackTheme t = t)
    ∧ (∀ (t : JetpackTheme) (tags : List String), t.tags = some tags →
        normalizeJetpackTheme t
          = { tags := none,
              taxonomies := some [("theme_feature",
                tags.map fun slug => { slug := slug, name := none })],
              fields := t.fields })
    ∧ normalizeJetpackTheme { tags := some ["a", "b"], taxonomies := none, fields := [] }
        = { tags := none,
            taxonomies := some [("theme_feature",
              [{ slug := "a", name := none }, { slug := "b", name := none }])],
            fields := [] } := by
  refine ⟨?_, ?_, by decide⟩
  · intro t ht
    unfold normalizeJetpackTheme
    rw [ht]
  · intro t tags ht
    unfold normalizeJetpackTheme
    rw [ht]

/-- Witness for C7: the concrete Jetpack theme `{ tags: ['a','b'] }`. -/
theorem c7_normalizeJetpackTheme_witness :
    normalizeJetpackTheme { tags := some ["a", "b"], taxonomies := none, fields := [] }
      = { tags := none,
          taxonomies := some [("theme_feature",
            [{ slug := "a", name := none }, { slug := "b", name := none }])],
          fields := [] } :=
  c7_normalizeJetpackTheme.2.2

/-- C8: the WordPress.org normalizer renames exactly `slug`, `preview_url`,
`screenshot_url` and `download_link` (all other keys pass through); without
`tags` the renamed theme is returned as-is; with `tags` (a slug-to-name
mapping) it is removed and `taxonomies.theme_feature` is the ordered list of
`{slug, name}` terms; the spec's concrete example holds. -/
theorem c8_normalizeWporgTheme :
    (renameWporgKey "slug" = "id" ∧ renameWporgKey "preview_url" = "demo_uri"
      ∧ renameWporgKey "screenshot_url" = "screenshot"
      ∧ renameWporgKey "download_link" = "download")
    ∧ (∀ k : String, ¬k = "slug" → ¬k = "preview_url" → ¬k = "screenshot_url" →
        ¬k = "download_link" → renameWporgKey k = k)
    ∧ (∀ t : WporgTheme, t.tags = none →
        normalizeWporgTheme t
          = { tags := t.tags, taxonomies := t.taxonomies,
              fields := t.fields.map fun kv => (renameWporgKey kv.1, kv.2) })
    ∧ (∀ (t : WporgTheme) (tags : List (String × String)), t.tags = some tags →
        normalizeWporgTheme t
          = { tags := none,
              taxonomies := some [("theme_feature",
                tags.map fun kv => { slug := kv.1, name := some kv.2 })],
              fields := t.fields.map fun kv => (renameWporgKey kv.1, kv.2) })
    ∧ normalizeWporgTheme
        { tags := some [("blue", "Blue")],
          taxonomies := none,
          fields := [("slug", Prim.pstr "twentysixteen")] }
        = { tags := none,
            taxonomies := some [("theme_feature", [{ slug := "blue", name := some "Blue" }])],
            fields := [("id", Prim.pstr "twentysixteen")] } := by
  refine ⟨⟨by decide, by decide, by decide, by decide⟩, ?_, ?_, ?_, by decide⟩
  · intro k h1 h2 h3 h4
    unfold renameWporgKey wporgAttributesMap
    simp [List.lookup, beq_eq_false_iff_ne.mpr h1, beq_eq_false_iff_ne.mpr h2,
      beq_eq_false_iff_ne.mpr h3, beq_eq_false_iff_ne.mpr h4]
  · intro t ht
    unfold normalizeWporgTheme
    rw [ht]
  · intro t tags ht
    unfold normalizeWporgTheme
    rw [ht]

/-- Witness for C8: the spec's concrete WordPress.org theme
`{ slug: 'twentysixteen', tags: { blue: 'Blue' } }`. -/
theorem c8_normalizeWporgTheme_witness :
    normalizeWporgTheme
        { tags := some [("blue", "Blue")],
          taxonomies := none,
          fields := [("slug", Prim.pstr "twentysixteen")] }
      = { tags := none,
          taxonomies := some [("theme_feature", [{ slug := "blue", name := some "Blue" }])],
          fields := [("id", Prim.pstr "twentysixteen")] } :=
  c8_normalizeWporgTheme.2.2.2.2

/-- C9: `isPremium` is true exactly when the theme's `stylesheet` is present
and starts with `'premium/'`; `isPremiumTheme` is false for a missing theme and
otherwise equals `isPremium` extended by the `cost.number`-truthiness fallback
(so it agrees with `isPremium` under the stylesheet rule and is additionally
true when `cost.number` is truthy). -/
theorem c9_premium_classifiers :
    (∀ theme : Theme, isPremium theme = true ↔
      ∃ s, theme.stylesheet = some s ∧ strStartsWith s "premium/" = true)
    ∧ isPremiumTheme none = false
    ∧ (∀ theme : Theme, isPremiumTheme (some theme)
        = (isPremium theme || costNumberTruthy theme)) := by
  refine ⟨?_, rfl, ?_⟩
  · intro theme
    unfold isPremium stylesheetIsPremium
    cases hs : theme.stylesheet with
    | none => simp
    | some s =>
      simp only [Bool.and_eq_true, Option.some.injEq]
      constructor
      · rintro ⟨h1, h2⟩
        exact ⟨s, rfl, h2⟩
      · rintro ⟨s2, rfl, h2⟩
        refine ⟨?_, h2⟩
        by_cases hse : s = ""
        · subst hse
          exact absurd h2 (by decide)
        · simp [beq_eq_false_iff_ne.mpr hse]
  · intro theme
    cases hg : stylesheetIsPremium theme.stylesheet <;>
      simp [isPremiumTheme, isPremium, hg]
